import Mathlib

/-!
# Captain Hooks — verification of the security validator and skill scorer

A shallow embedding of the two decision engines of the repository:

* `hooks/security-validator.hook.ts` (current revision): fail-closed
  allow/ask/block decisions for tool invocations;
* `hooks/skill-eval.hook.ts`: weighted multi-factor activation scoring.

Strings are modelled as `List Char` (`Str`).  JavaScript numbers are
modelled as exact rationals `ℚ`; regular expressions appearing in
declarative rule data are modelled as their compiled Boolean test
functions, while the fixed regexes written literally in the source
(`/\$\{HOME\}/g`, `/\$HOME\b/g`, the `^\$HOME(?=\/|$)` family and the
keyword `\b…\b` wrappers) are modelled exactly.  Process exit is
modelled by an explicit exit code; `console.log` output by an explicit
`Option` field.  Filesystem reads are modelled by explicit parameters
(pattern-load results, rules-load results, skill-content lookup).
-/

set_option maxHeartbeats 1000000

abbrev Str := List Char

/-- JS word character class `\w` = `[A-Za-z0-9_]` (ASCII). -/
def isWordChar (c : Char) : Bool :=
  (('a' ≤ c && c ≤ 'z') || ('A' ≤ c && c ≤ 'Z') || ('0' ≤ c && c ≤ '9') || c = '_')

/-- Word-character-ness of an optional character; `none` (string edge)
counts as non-word, matching the JS `\b` convention. -/
def wd : Option Char → Bool
  | none => false
  | some c => isWordChar c

/-- JS `String.prototype.includes`: contiguous substring containment. -/
def containsSub (hay sub : Str) : Bool :=
  if sub.isPrefixOf hay then true
  else
    match hay with
    | [] => false
    | _ :: t => containsSub t sub

/-- JS `String.prototype.trim` (whitespace at both ends removed). -/
def trimStr (s : Str) : Str :=
  ((s.dropWhile Char.isWhitespace).reverse.dropWhile Char.isWhitespace).reverse

/-- JS `String.prototype.toLowerCase`, per character. -/
def lowerStr (s : Str) : Str := s.map Char.toLower

/-! ## `hooks/lib/paths.ts` -/

/-- One anchored replacement `p.replace(/^tok(?=\/|$)/, home)`:
if `tok` is a prefix of `p` and the next character is `/` or the end of
the string, the token is replaced by `home`; otherwise `p` is returned
unchanged. -/
def leadingTokenReplace (tok home p : Str) : Str :=
  if tok.isPrefixOf p &&
      (match (p.drop tok.length).head? with
       | none => true
       | some c => c = '/') then
    home ++ p.drop tok.length
  else p

/-- `expandPath` from `hooks/lib/paths.ts`: three sequential anchored
replacements, in source order `$HOME`, then `${HOME}`, then `~`, each
with the `(?=\/|$)` lookahead.  `home` stands for `homedir()`. -/
def expandPath (home p : Str) : Str :=
  leadingTokenReplace "~".data home
    (leadingTokenReplace "${HOME}".data home
      (leadingTokenReplace "$HOME".data home p))

/-! ## Node `path.resolve` (single argument, with explicit cwd) -/

/-- Split a character list on `/`. -/
def splitSlash : Str → List Str
  | [] => [[]]
  | c :: t =>
    if c = '/' then [] :: splitSlash t
    else
      match splitSlash t with
      | [] => [[c]]
      | h :: r => (c :: h) :: r

/-- Canonicalize a segment list: drop empty and `.` segments, let `..`
pop the previous segment (at the root it pops nothing). -/
def normSegs (segs : List Str) : List Str :=
  segs.foldl
    (fun acc s =>
      if s = [] || s = ".".data then acc
      else if s = "..".data then acc.dropLast
      else acc ++ [s])
    []

/-- Reassemble an absolute path from segments (root is `/`). -/
def joinAbs (segs : List Str) : Str :=
  '/' :: List.intercalate "/".data segs

/-- Node `path.resolve(p)` against working directory `cwd`: an absolute
argument is canonicalized directly, a relative one is first joined to
`cwd`.  `..` and `.` segments are collapsed. -/
def resolvePath (cwd p : Str) : Str :=
  joinAbs (normSegs (splitSlash (if p.head? = some '/' then p else cwd ++ '/' :: p)))

/-! ## `normalizeHomeTokens` from the security validator

The source applies two global regex replacements in sequence:
`.replace(/\$\{HOME\}/g, '~').replace(/\$HOME\b/g, '~')`. -/

/-- Generic left-to-right global replacement scanner, fuel-indexed so
that it reduces definitionally.  At each position, `step` inspects the
remaining text: `some k` means "a token of length `k` matches here" —
the scanner emits the sentinel `~` and continues after the token, as a
JS global regex replacement does — and `none` means the current
character is copied and the scan advances by one. -/
def scanF (step : Str → Option Nat) : Nat → Str → Str
  | _, [] => []
  | 0, l => l
  | n + 1, c :: t =>
    match step (c :: t) with
    | some k => '~' :: scanF step n ((c :: t).drop k)
    | none => c :: scanF step n t

/-- Run the scanner with enough fuel for the whole input. -/
def scanRun (step : Str → Option Nat) (l : Str) : Str := scanF step l.length l

/-- Token recognizer of `/\$\{HOME\}/g`: a literal `${HOME}` (7
characters). -/
def bracedStep (l : Str) : Option Nat :=
  if "${HOME}".data.isPrefixOf l then some 7 else none

/-- Token recognizer of `/\$HOME\b/g`: a literal `$HOME` (5
characters) whose following character, if any, is not a word character
(`E` is a word character, so this is exactly the `\b` condition). -/
def bareHomeStep (l : Str) : Option Nat :=
  if "$HOME".data.isPrefixOf l && !wd (l.drop 5).head? then some 5 else none

/-- Global literal replacement of `${HOME}` by `~`
(`.replace(/\$\{HOME\}/g, '~')`). -/
def replaceBraced (l : Str) : Str := scanRun bracedStep l

/-- Global replacement of `/\$HOME\b/g` by `~`. -/
def replaceBareHome (l : Str) : Str := scanRun bareHomeStep l

/-- `normalizeHomeTokens` from `security-validator.hook.ts`: the two
global replacements applied in source order. -/
def normalizeHomeTokens (command : Str) : Str :=
  replaceBareHome (replaceBraced command)

/-- Token recognizer modelled from the spec: at each position a
home-directory indirection token is either the braced spelling or the
word-bounded bare spelling. -/
def specHomeTokenStep (l : Str) : Option Nat :=
  match bracedStep l with
  | some k => some k
  | none => bareHomeStep l

/-- Modelled from the spec: a single left-to-right pass replacing each
home-directory indirection token — braced `${HOME}`, or bare `$HOME`
followed by a word boundary — with the sentinel `~`, copying every
other character of the input unchanged. -/
def specNormalizeHome (l : Str) : Str := scanRun specHomeTokenStep l

/-! ## Security validator data model (`security-validator.hook.ts`, current revision) -/

/-- A JSON value, as delivered by `JSON.parse` on the hook's stdin. -/
inductive JSValue where
  | str (s : Str)
  | num (n : Int)
  | jbool (b : Bool)
  | jnull
  | arr (elems : List JSValue)
  | obj (fields : List (Str × JSValue))

/-- JS property access on a parsed object: first binding of the key. -/
def getField (fields : List (Str × JSValue)) (k : Str) : Option JSValue :=
  match fields.find? (fun kv => decide (kv.1 = k)) with
  | some kv => some kv.2
  | none => none

/-- `typeof v === 'object' && v !== null` (objects and arrays). -/
def isObjectLike : JSValue → Bool
  | .obj _ => true
  | .arr _ => true
  | _ => false

/-- The validated hook input (`HookInput` interface).  `tool_input` is
kept as the raw JSON value: validation only checks that it is a
non-null object-typed value. -/
structure HookInput where
  tool_name : Str
  tool_input : JSValue
  session_id : Str

/-- `validateInput` from the security validator: `tool_name` and
`session_id` must be strings, `tool_input` a non-null object-typed
value; anything else yields `none`.  Non-object payloads fail the
field accesses and yield `none` as in the source. -/
def validateInput (raw : JSValue) : Option HookInput :=
  match raw with
  | .obj fields =>
    match getField fields "tool_name".data with
    | some (.str tn) =>
      match getField fields "session_id".data with
      | some (.str sid) =>
        match getField fields "tool_input".data with
        | some ti => if isObjectLike ti then some ⟨tn, ti, sid⟩ else none
        | none => none
      | _ => none
    | _ => none
  | _ => none

/-- `extractCommand`: the `command` field when it is a string. -/
def extractCommand (toolInput : JSValue) : Option Str :=
  match toolInput with
  | .obj fields =>
    match getField fields "command".data with
    | some (.str s) => some s
    | _ => none
  | _ => none

/-- `extractPath`: the `file_path` field when it is a string. -/
def extractPath (toolInput : JSValue) : Option Str :=
  match toolInput with
  | .obj fields =>
    match getField fields "file_path".data with
    | some (.str s) => some s
    | _ => none
  | _ => none

/-- A compiled security regex: its Boolean test plus its source text
(used in decision messages). -/
structure CompiledPattern where
  test : Str → Bool
  source : Str

/-- The loaded security pattern set.  In the source the four lists live
under optional `commands`/`paths` records and every use reads them with
`|| []`, so absent lists behave exactly like empty ones; the structure
is flattened accordingly.  `zeroAccess` entries are stored already
`expandPath`-expanded, as `loadPatterns` does at load time. -/
structure SecurityPatterns where
  cmdBlock : List CompiledPattern
  cmdConfirm : List CompiledPattern
  zeroAccess : List Str
  confirmWrite : List Str

/-- The three-valued decision emitted on stdout. -/
inductive Decision where
  | block (message : Str)
  | ask (message : Str)
  | allowContinue
deriving DecidableEq

/-- Process outcome: exit code plus the decision printed to stdout
(`none` when the process exits without printing a decision). -/
structure Outcome where
  exitCode : Nat
  output : Option Decision
deriving DecidableEq

def blockPatternMsg (src : Str) : Str :=
  "Blocked by security policy: command matches \"".data ++ src ++ "\"".data

def protectedRefMsg : Str :=
  "Blocked by security policy: command references a protected path".data

def confirmPatternMsg (src : Str) : Str :=
  "Security check: command matches \"".data ++ src ++ "\". Proceed?".data

def bashMissingMsg : Str :=
  "Blocked: Bash command is missing or not a string".data

def loadFailMsg : Str :=
  "Security patterns failed to load — blocking all operations".data

def pathBlockMsg (fp : Str) : Str :=
  "Blocked: \"".data ++ fp ++ "\" is in a protected path".data

def pathConfirmMsg (fp : Str) : Str :=
  "Security check: writing to \"".data ++ fp ++ "\". Proceed?".data

/-- `commandReferencesProtectedPath`: the (re-)normalized command
contains the canonical form of a protected path, or — when the
protected path lies under the home directory — its `~`-prefixed
spelling. -/
def commandReferencesProtectedPath (home cwd : Str) (command : Str)
    (protectedPaths : List Str) : Bool :=
  let normalized := normalizeHomeTokens command
  protectedPaths.any fun protectedPath =>
    let expandedProtected := resolvePath cwd (expandPath home protectedPath)
    containsSub normalized expandedProtected ||
      (let homeResolved := resolvePath cwd (expandPath home "~".data)
       homeResolved.isPrefixOf expandedProtected &&
         (let suffix := expandedProtected.drop homeResolved.length
          !suffix.isEmpty && containsSub normalized ('~' :: suffix)))

/-- The Bash branch of `main`: block patterns in declared order, then
the protected-path reference check, then confirm patterns in declared
order; `none` when the command survives all three. -/
def bashSection (home cwd : Str) (P : SecurityPatterns) (cmd : Str) : Option Decision :=
  let cmdForPolicy := normalizeHomeTokens cmd
  match P.cmdBlock.find? (fun p => p.test cmdForPolicy) with
  | some p => some (.block (blockPatternMsg p.source))
  | none =>
    if commandReferencesProtectedPath home cwd cmdForPolicy P.zeroAccess then
      some (.block protectedRefMsg)
    else
      match P.cmdConfirm.find? (fun p => p.test cmdForPolicy) with
      | some p => some (.ask (confirmPatternMsg p.source))
      | none => none

/-- The file-path branch of `main`: when `tool_input.file_path` is a
string, resolve it and block on a `zeroAccess` string-prefix match;
otherwise ask on a `confirmWrite` substring match for mutating tools. -/
def pathSection (home cwd : Str) (P : SecurityPatterns) (toolName : Str)
    (toolInput : JSValue) : Option Decision :=
  match extractPath toolInput with
  | none => none
  | some fp =>
    let expanded := resolvePath cwd (expandPath home fp)
    match P.zeroAccess.find? (fun pp => (resolvePath cwd pp).isPrefixOf expanded) with
    | some _ => some (.block (pathBlockMsg fp))
    | none =>
      if toolName = "Write".data ∨ toolName = "Edit".data then
        match P.confirmWrite.find? (fun cp => containsSub expanded cp) with
        | some _ => some (.ask (pathConfirmMsg fp))
        | none => none
      else none

/-- `main` of the security validator as a function of the pattern-load
result (`none` models a caught load exception) and the parsed stdin
payload.  Exit code 2 with no printed decision models the fail-closed
`process.exit(2)` on malformed input. -/
def runSecurity (home cwd : Str) (patternsResult : Option SecurityPatterns)
    (raw : JSValue) : Outcome :=
  match validateInput raw with
  | none => ⟨2, none⟩
  | some input =>
    match patternsResult with
    | none => ⟨0, some (.block loadFailMsg)⟩
    | some P =>
      let bashDecision : Option Decision :=
        if input.tool_name = "Bash".data then
          match extractCommand input.tool_input with
          | none => some (.block bashMissingMsg)
          | some cmd => bashSection home cwd P cmd
        else none
      match bashDecision with
      | some d => ⟨0, some d⟩
      | none =>
        match pathSection home cwd P input.tool_name input.tool_input with
        | some d => ⟨0, some d⟩
        | none => ⟨0, some .allowContinue⟩

/-! ## Skill activation scorer (`skill-eval.hook.ts`) -/

/-- Per-dimension scoring weights (`Weights` interface). -/
structure Weights where
  keyword : ℚ
  pattern : ℚ
  directory : ℚ
  intent : ℚ
  filePath : ℚ
  content : ℚ

/-- A rule's partial weight override (`Partial<Weights>`). -/
structure WeightsOpt where
  keyword : Option ℚ := none
  pattern : Option ℚ := none
  directory : Option ℚ := none
  intent : Option ℚ := none
  filePath : Option ℚ := none
  content : Option ℚ := none

/-- JS spread `{ ...defaultWeights, ...rule.weights }`: per-field
override. -/
def mergeWeights (dw : Weights) (ov : WeightsOpt) : Weights where
  keyword := ov.keyword.getD dw.keyword
  pattern := ov.pattern.getD dw.pattern
  directory := ov.directory.getD dw.directory
  intent := ov.intent.getD dw.intent
  filePath := ov.filePath.getD dw.filePath
  content := ov.content.getD dw.content

/-- Trigger lists (`Triggers` interface).  An absent list behaves like
an empty one at every use site (`triggers.x?.length` guards), so lists
are kept plain.  Regex trigger patterns are modelled as their compiled
case-insensitive tests; an invalid regex is the constantly-false test
(skipped, but still counted in the declared total).  `contentPatterns`
is stubbed in the source and not part of scoring. -/
structure Triggers where
  keywords : List Str := []
  patterns : List (Str → Bool) := []
  fileTypes : List Str := []
  directories : List Str := []
  intents : List Str := []

inductive RuleType where
  | proactive
  | reactive
  | guard
deriving DecidableEq

inductive Enforcement where
  | suggest
  | inject
  | require
deriving DecidableEq

/-- An activation rule (`Rule` interface).  `priority` and `cooldown`
are optional at the use sites (`rule.priority ?? 5`,
`rule.cooldown &&`), hence `Option`. -/
structure Rule where
  skill : Str
  type : RuleType
  enforcement : Enforcement
  priority : Option ℚ
  triggers : Triggers
  weights : WeightsOpt := {}
  threshold : Option ℚ := none
  suggestion : Str
  cooldown : Option ℚ := none

def strs (l : List String) : List Str := l.map String.data

/-- The fixed intent vocabulary of `matchIntents`. -/
def intentTable : List (Str × List Str) :=
  [("debug".data, strs ["bug", "error", "fix", "broken", "crash", "fail", "debug", "issue"]),
   ("create".data, strs ["create", "new", "add", "build", "scaffold", "generate", "init"]),
   ("deploy".data, strs ["deploy", "ship", "release", "publish", "push", "launch"]),
   ("test".data, strs ["test", "spec", "coverage", "assert", "expect", "tdd"]),
   ("refactor".data, strs ["refactor", "clean", "reorganize", "restructure", "simplify"]),
   ("research".data, strs ["research", "investigate", "explore", "understand", "analyze"]),
   ("review".data, strs ["review", "feedback", "check", "audit", "inspect"]),
   ("extend".data, strs ["extend", "plugin", "hook", "skill", "customize", "configure"]),
   ("capture".data, strs ["note", "capture", "remember", "save", "jot", "log", "record"])]

/-- Word boundary between two optional adjacent characters. -/
def bdryB (a b : Option Char) : Bool := wd a != wd b

/-- Does `\b needle \b` match at the current position?  `prev` is the
character just before the position. -/
def matchHereWB (prev : Option Char) (hay needle : Str) : Bool :=
  match needle with
  | [] => bdryB prev hay.head?
  | _ =>
    needle.isPrefixOf hay && bdryB prev needle.head? &&
      bdryB needle.getLast? ((hay.drop needle.length).head?)

def wbSearch (needle : Str) (prev : Option Char) : Str → Bool
  | [] => matchHereWB prev [] needle
  | c :: t => matchHereWB prev (c :: t) needle || wbSearch needle (some c) t

/-- Regex test `\b escapeRegex(kw) \b` (case-insensitivity is applied
by the caller via lowercasing): word-bounded occurrence of the literal
keyword anywhere in the text. -/
def testWordBounded (hay needle : Str) : Bool := wbSearch needle none hay

/-- `matchKeywords`: whole-word, case-insensitive count of matched
keywords (the source lowercases the prompt and compiles each keyword
with the `i` flag, which on ASCII text equals comparing lowercased
forms). -/
def matchKeywords (prompt : Str) (keywords : List Str) : Nat :=
  let lower := lowerStr prompt
  keywords.countP fun kw => testWordBounded lower (lowerStr kw)

/-- `matchPatterns`: count of declared regex patterns whose test
accepts the prompt. -/
def matchPatterns (prompt : Str) (patterns : List (Str → Bool)) : Nat :=
  patterns.countP fun p => p prompt

/-- `matchDirectories`: substring containment against the cwd. -/
def matchDirectories (cwd : Str) (directories : List Str) : Nat :=
  directories.countP fun dir => containsSub cwd dir

/-- `matchIntents`: an intent label counts as matched when any word of
its fixed vocabulary occurs in the lowercased prompt; an unknown label
never matches (but still counts in the declared total). -/
def matchIntents (prompt : Str) (intents : List Str) : Nat :=
  let lower := lowerStr prompt
  intents.countP fun intent =>
    match intentTable.find? (fun kv => decide (kv.1 = intent)) with
    | none => false
    | some kv => kv.2.any fun word => containsSub lower word

/-- `matchFileTypes`: substring containment against the prompt. -/
def matchFileTypes (prompt : Str) (fileTypes : List Str) : Nat :=
  fileTypes.countP fun ft => containsSub prompt ft

/-- One entry of the `dims` array of `scoreRule`. -/
structure Dim where
  count : Nat
  total : Nat
  weight : ℚ

/-- A scored candidate (`ScoredMatch` interface). -/
structure ScoredMatch where
  rule : Rule
  normalizedScore : ℚ
  finalScore : ℚ

/-- The `dims` array: one entry per non-empty trigger dimension, in
source order. -/
def ruleDims (prompt cwd : Str) (rule : Rule) (weights : Weights) : List Dim :=
  (if !rule.triggers.keywords.isEmpty then
    [⟨matchKeywords prompt rule.triggers.keywords, rule.triggers.keywords.length, weights.keyword⟩]
  else []) ++
  (if !rule.triggers.patterns.isEmpty then
    [⟨matchPatterns prompt rule.triggers.patterns, rule.triggers.patterns.length, weights.pattern⟩]
  else []) ++
  (if !rule.triggers.directories.isEmpty then
    [⟨matchDirectories cwd rule.triggers.directories, rule.triggers.directories.length, weights.directory⟩]
  else []) ++
  (if !rule.triggers.intents.isEmpty then
    [⟨matchIntents prompt rule.triggers.intents, rule.triggers.intents.length, weights.intent⟩]
  else []) ++
  (if !rule.triggers.fileTypes.isEmpty then
    [⟨matchFileTypes prompt rule.triggers.fileTypes, rule.triggers.fileTypes.length, weights.filePath⟩]
  else [])

/-- `scoreRule`: weighted multi-factor score of one rule, `none` when
the rule does not participate (no present dimension, no match at all,
or below its effective threshold). -/
def scoreRule (prompt cwd : Str) (rule : Rule) (defaultWeights : Weights)
    (defaultThreshold : ℚ) : Option ScoredMatch :=
  let weights := mergeWeights defaultWeights rule.weights
  let threshold := rule.threshold.getD defaultThreshold
  let dims := ruleDims prompt cwd rule weights
  if dims.isEmpty then none
  else
    let totalMatches := (dims.map Dim.count).sum
    if totalMatches = 0 then none
    else
      let rawScore := (dims.map fun d => (d.count : ℚ) * d.weight).sum
      let maxScore := (dims.map fun d => (d.total : ℚ) * d.weight).sum
      let normalizedScore := rawScore / maxScore * 100
      if normalizedScore < threshold then none
      else some ⟨rule, normalizedScore, normalizedScore * (rule.priority.getD 5 / 10)⟩

/-- Exclusion set; regex exclusions are modelled as their compiled
case-insensitive tests on the trimmed, lowercased prompt. -/
structure Exclusions where
  prefixes : List Str := []
  patterns : List (Str → Bool) := []

/-- `isExcluded`: prefix or pattern match on the trimmed lowercased
prompt. -/
def isExcluded (prompt : Str) (ex : Exclusions) : Bool :=
  let trimmed := lowerStr (trimStr prompt)
  ex.prefixes.any (fun p => (lowerStr p).isPrefixOf trimmed) ||
    ex.patterns.any fun pat => pat trimmed

/-- The process-lifetime cooldown table `skillId → lastFiredTimestamp`
(milliseconds). -/
abbrev CooldownMap := Str → Option Int

/-- `isOnCooldown`.  A missing entry — and, through JS falsiness, a
recorded timestamp of exactly 0 — means not on cooldown. -/
def isOnCooldown (m : CooldownMap) (skill : Str) (cooldownSeconds : ℚ) (now : Int) : Bool :=
  match m skill with
  | none => false
  | some lastFired =>
    if lastFired = 0 then false
    else decide (((now - lastFired : Int) : ℚ) < cooldownSeconds * 1000)

/-- `recordFire`: set the skill's last-fired timestamp to now. -/
def recordFire (m : CooldownMap) (skill : Str) (now : Int) : CooldownMap :=
  fun s => if s = skill then some now else m s

structure ScoringDefaults where
  weights : Weights
  threshold : ℚ

structure EvalSettings where
  maxSuggestions : Nat
  showScores : Bool

/-- The parsed `skill-rules.json` (`SkillRules` interface). -/
structure SkillRules where
  defaults : ScoringDefaults
  rules : List Rule
  exclusions : Exclusions
  settings : EvalSettings

/-- Result of attempting to load `skill-rules.json`: the file may be
absent, present but unreadable/unparseable, or well-formed. -/
inductive RulesLoad where
  | absent
  | malformed
  | loaded (rules : SkillRules)

/-- One iteration of the candidate loop in `main`: skip non-proactive
rules, skip rules with a truthy cooldown currently in effect, otherwise
score. -/
def considerRule (prompt cwd : Str) (cm : CooldownMap) (now : Int)
    (dw : Weights) (dt : ℚ) (rule : Rule) : Option ScoredMatch :=
  if rule.type ≠ RuleType.proactive then none
  else if (match rule.cooldown with
           | some c => decide (c ≠ 0) && isOnCooldown cm rule.skill c now
           | none => false) then none
  else scoreRule prompt cwd rule dw dt

/-- Stable insertion for the descending sort
`matches.sort((a, b) => b.finalScore - a.finalScore)`. -/
def insertByScore (x : ScoredMatch) : List ScoredMatch → List ScoredMatch
  | [] => [x]
  | y :: ys => if y.finalScore < x.finalScore then x :: y :: ys else y :: insertByScore x ys

/-- Stable sort descending by `finalScore`. -/
def sortByScoreDesc (l : List ScoredMatch) : List ScoredMatch :=
  l.foldr insertByScore []

/-- The optional `[score: N]` tag; `toFixed(0)` is modelled as rounding
to the nearest integer. -/
def scoreTag (sc : Bool) (ns : ℚ) : Str :=
  if sc then " [score: ".data ++ (toString (round ns)).data ++ "]".data else []

/-- Rendering of one emitted match, per enforcement kind.
`skillContent` models `loadSkillContext` (filesystem lookup of the
skill's `SKILL.md`). -/
def renderMatch (skillContent : Str → Option Str) (sc : Bool) (m : ScoredMatch) : Str :=
  let scoreStr := scoreTag sc m.normalizedScore
  match m.rule.enforcement with
  | .inject =>
    match skillContent m.rule.skill with
    | some ctx =>
      "--- Auto-loaded skill: ".data ++ m.rule.skill ++ scoreStr ++ " ---\n".data ++ ctx
    | none => "Skill suggestion: ".data ++ m.rule.suggestion ++ scoreStr
  | .require =>
    "REQUIRED: ".data ++ m.rule.suggestion ++ scoreStr ++
      "\nPlease acknowledge before proceeding.".data
  | .suggest => "Skill suggestion: ".data ++ m.rule.suggestion ++ scoreStr

/-- Outcome of one skill-eval invocation: printed output (if any), exit
code, and the cooldown table after the run. -/
structure EvalOutcome where
  output : Option Str
  exitCode : Nat
  cooldowns : CooldownMap

/-- The activation hook's stdin payload. -/
structure PromptInput where
  prompt : Str
  session_id : Str

/-- The emitted candidates: scored matches sorted descending by final
score, truncated to `maxSuggestions`. -/
def topMatches (prompt cwd : Str) (cm : CooldownMap) (now : Int)
    (rules : SkillRules) : List ScoredMatch :=
  let matchList := rules.rules.filterMap
    (considerRule prompt cwd cm now rules.defaults.weights rules.defaults.threshold)
  (sortByScoreDesc matchList).take rules.settings.maxSuggestions

/-- `main` of `skill-eval.hook.ts` as a function of the parsed stdin
payload and the rules-load result.  The per-match loop both renders a
part and records the fire, as in the source. -/
def runSkillEval (cwd : Str) (now : Int) (skillContent : Str → Option Str)
    (cm : CooldownMap) (input : Option PromptInput) (load : RulesLoad) : EvalOutcome :=
  match input with
  | none => ⟨none, 0, cm⟩
  | some inp =>
    if inp.prompt.isEmpty then ⟨none, 0, cm⟩
    else
      match load with
      | .absent => ⟨none, 0, cm⟩
      | .malformed => ⟨none, 0, cm⟩
      | .loaded rules =>
        if isExcluded inp.prompt rules.exclusions then ⟨none, 0, cm⟩
        else
          let matchList := rules.rules.filterMap
            (considerRule inp.prompt cwd cm now rules.defaults.weights rules.defaults.threshold)
          if matchList.isEmpty then ⟨none, 0, cm⟩
          else
            let top := (sortByScoreDesc matchList).take rules.settings.maxSuggestions
            let folded := top.foldl
              (fun (acc : List Str × CooldownMap) m =>
                (acc.1 ++ [renderMatch skillContent rules.settings.showScores m],
                 recordFire acc.2 m.rule.skill now))
              ([], cm)
            let output :=
              if !folded.1.isEmpty then
                some ("<system-reminder>\n".data ++
                  List.intercalate "\n\n".data folded.1 ++ "\n</system-reminder>".data)
              else none
            ⟨output, 0, folded.2⟩

/-! ## Shared concrete fixtures for witnesses and counterexamples -/

def homeU : Str := "/home/u".data

def cwd0 : Str := "/cwd".data

def emptyPatterns : SecurityPatterns := ⟨[], [], [], []⟩

/-- A well-formed payload for tool `tool` with the given `tool_input`
fields. -/
def mkPayload (tool : String) (ti : List (Str × JSValue)) : JSValue :=
  .obj [("tool_name".data, .str tool.data), ("session_id".data, .str "s".data),
        ("tool_input".data, .obj ti)]

/-! ## Derived notions used in the claim statements -/

/-- Containment in the claim's sense: a canonical path is the protected
path itself or a descendant of it (a path-separator boundary follows
the protected path). -/
def isContainedIn (p base : Str) : Bool :=
  decide (p = base) || (base ++ "/".data).isPrefixOf p

/-- The kind of a printed decision, forgetting the message text. -/
inductive DecisionKind where
  | blockK
  | askK
  | allowK
  | noneK
deriving DecidableEq

/-- The kind of a decision, forgetting the message text. -/
def decisionClass : Decision → DecisionKind
  | .block _ => .blockK
  | .ask _ => .askK
  | .allowContinue => .allowK

def decisionKind : Option Decision → DecisionKind
  | some d => decisionClass d
  | none => .noneK

/-- Claim-side total of matched trigger counts over the present
dimensions of a rule. -/
def totalMatchesSpec (prompt cwd : Str) (rule : Rule) : Nat :=
  (if !rule.triggers.keywords.isEmpty then matchKeywords prompt rule.triggers.keywords else 0) +
  (if !rule.triggers.patterns.isEmpty then matchPatterns prompt rule.triggers.patterns else 0) +
  (if !rule.triggers.directories.isEmpty then matchDirectories cwd rule.triggers.directories else 0) +
  (if !rule.triggers.intents.isEmpty then matchIntents prompt rule.triggers.intents else 0) +
  (if !rule.triggers.fileTypes.isEmpty then matchFileTypes prompt rule.triggers.fileTypes else 0)

/-- Claim-side raw score: sum over present dimensions of
matched count x dimension weight. -/
def rawScoreSpec (prompt cwd : Str) (rule : Rule) (w : Weights) : ℚ :=
  (if !rule.triggers.keywords.isEmpty then
    (matchKeywords prompt rule.triggers.keywords : ℚ) * w.keyword else 0) +
  (if !rule.triggers.patterns.isEmpty then
    (matchPatterns prompt rule.triggers.patterns : ℚ) * w.pattern else 0) +
  (if !rule.triggers.directories.isEmpty then
    (matchDirectories cwd rule.triggers.directories : ℚ) * w.directory else 0) +
  (if !rule.triggers.intents.isEmpty then
    (matchIntents prompt rule.triggers.intents : ℚ) * w.intent else 0) +
  (if !rule.triggers.fileTypes.isEmpty then
    (matchFileTypes prompt rule.triggers.fileTypes : ℚ) * w.filePath else 0)

/-- Claim-side maximum possible score: sum over present dimensions of
declared trigger count x dimension weight. -/
def maxScoreSpec (rule : Rule) (w : Weights) : ℚ :=
  (if !rule.triggers.keywords.isEmpty then
    (rule.triggers.keywords.length : ℚ) * w.keyword else 0) +
  (if !rule.triggers.patterns.isEmpty then
    (rule.triggers.patterns.length : ℚ) * w.pattern else 0) +
  (if !rule.triggers.directories.isEmpty then
    (rule.triggers.directories.length : ℚ) * w.directory else 0) +
  (if !rule.triggers.intents.isEmpty then
    (rule.triggers.intents.length : ℚ) * w.intent else 0) +
  (if !rule.triggers.fileTypes.isEmpty then
    (rule.triggers.fileTypes.length : ℚ) * w.filePath else 0)

/-- Claim-side condition of C6: no trigger dimension of the rule has at
least one match (vacuously true when every trigger list is empty). -/
def noMatchedDimension (prompt cwd : Str) (rule : Rule) : Prop :=
  matchKeywords prompt rule.triggers.keywords = 0 ∧
  matchPatterns prompt rule.triggers.patterns = 0 ∧
  matchDirectories cwd rule.triggers.directories = 0 ∧
  matchIntents prompt rule.triggers.intents = 0 ∧
  matchFileTypes prompt rule.triggers.fileTypes = 0

/-! ## Additional concrete fixtures -/

/-- Pattern set with a single zero-access path. -/
def sshPatterns : SecurityPatterns := ⟨[], [], ["/home/u/.ssh".data], []⟩

/-- Pattern set with a confirm pattern and a zero-access path, for the
evaluation-order counterexample. -/
def confirmProtPatterns : SecurityPatterns :=
  ⟨[], [⟨fun c => containsSub c "git push --force".data, "git push --force".data⟩],
    ["/home/u/.ssh".data], []⟩

/-- Pattern set with a single block pattern. -/
def blockOnlyPatterns : SecurityPatterns :=
  ⟨[⟨fun c => containsSub c "rm -rf".data, "rm -rf".data⟩], [], [], []⟩

/-! ## Skill-eval fixtures -/

def defaultWeightsFix : Weights := ⟨3, 2, 2, 1, 2, 1⟩

def promptCreate : Str := "create a new skill for my project".data

def createSkillRule : Rule :=
  { skill := "CreateSkill".data
    type := .proactive
    enforcement := .suggest
    priority := some 7
    triggers := { keywords := strs ["skill", "hook"], intents := strs ["create"] }
    suggestion := "Use the CreateSkill skill".data }

def guardRule : Rule :=
  { skill := "Guard".data
    type := .guard
    enforcement := .suggest
    priority := some 9
    triggers := { keywords := strs ["skill"] }
    suggestion := "guard".data }

def noTriggerRule : Rule :=
  { skill := "Empty".data
    type := .proactive
    enforcement := .suggest
    priority := some 9
    triggers := {}
    suggestion := "empty".data }

def fixtureRules : SkillRules :=
  { defaults := { weights := defaultWeightsFix, threshold := 30 }
    rules := [guardRule, noTriggerRule, createSkillRule]
    exclusions := { prefixes := strs ["/", "hello"] }
    settings := { maxSuggestions := 3, showScores := false } }

def cmEmpty : CooldownMap := fun _ => none

/-! ## Scanner unfolding lemmas -/

/-- The scanner ignores fuel beyond the input length (as long as every
recognized token is non-empty). -/
theorem scanF_fuel (step : Str → Option Nat)
    (hstep : ∀ l k, step l = some k → 1 ≤ k) :
    ∀ n m l, l.length ≤ n → l.length ≤ m → scanF step n l = scanF step m l := by
  intro n
  induction n with
  | zero =>
    intro m l hn _
    have hl : l = [] := List.length_eq_zero.mp (Nat.le_zero.mp hn)
    subst hl
    cases m <;> rfl
  | succ n ih =>
    intro m l hn hm
    cases l with
    | nil => cases m <;> rfl
    | cons c t =>
      cases m with
      | zero => simp at hm
      | succ m =>
        cases hs : step (c :: t) with
        | some k =>
          have hk := hstep _ _ hs
          have hd : ((c :: t).drop k).length ≤ n := by
            simp only [List.length_drop, List.length_cons]
            simp only [List.length_cons] at hn
            omega
          have hd2 : ((c :: t).drop k).length ≤ m := by
            simp only [List.length_drop, List.length_cons]
            simp only [List.length_cons] at hm
            omega
          simp only [scanF, hs]
          exact congrArg (fun x => '~' :: x) (ih m _ hd hd2)
        | none =>
          have ht : t.length ≤ n := by
            simp only [List.length_cons] at hn; omega
          have ht2 : t.length ≤ m := by
            simp only [List.length_cons] at hm; omega
          simp only [scanF, hs]
          exact congrArg (fun x => c :: x) (ih m t ht ht2)

theorem scanRun_nil (step : Str → Option Nat) : scanRun step [] = [] := rfl

/-- Unfolding of the scanner at a replacement position. -/
theorem scanRun_cons_repl (step : Str → Option Nat)
    (hstep : ∀ l k, step l = some k → 1 ≤ k) (c : Char) (t : Str) (k : Nat)
    (hs : step (c :: t) = some k) :
    scanRun step (c :: t) = '~' :: scanRun step ((c :: t).drop k) := by
  have hk := hstep _ _ hs
  show scanF step (c :: t).length (c :: t) = _
  simp only [List.length_cons, scanF, hs]
  rw [scanF_fuel step hstep t.length ((c :: t).drop k).length ((c :: t).drop k)
    (by simp only [List.length_drop, List.length_cons]; omega) (le_refl _)]
  rfl

/-- Unfolding of the scanner at a copy position. -/
theorem scanRun_cons_copy (step : Str → Option Nat) (c : Char) (t : Str)
    (hs : step (c :: t) = none) :
    scanRun step (c :: t) = c :: scanRun step t := by
  show scanF step (c :: t).length (c :: t) = _
  simp only [List.length_cons, scanF, hs]
  rfl

theorem bracedStep_pos : ∀ l k, bracedStep l = some k → 1 ≤ k := by
  intro l k h
  simp only [bracedStep] at h
  split at h
  · cases h; omega
  · cases h

theorem bareHomeStep_pos : ∀ l k, bareHomeStep l = some k → 1 ≤ k := by
  intro l k h
  simp only [bareHomeStep] at h
  split at h
  · cases h; omega
  · cases h

theorem specHomeTokenStep_pos : ∀ l k, specHomeTokenStep l = some k → 1 ≤ k := by
  intro l k h
  simp only [specHomeTokenStep] at h
  cases hb : bracedStep l with
  | some j => rw [hb] at h; cases h; exact bracedStep_pos l k hb
  | none => rw [hb] at h; exact bareHomeStep_pos l k h


/-! ## C1 — load failure of the pattern store blocks everything -/

/-- C1: when the security pattern file exists but cannot be read or
parsed (`loadPatterns` returns `null`), the engine emits the block
decision for every validated operation, and for no input whatsoever
does it allow or ask. -/
theorem security_load_failure_blocks (home cwd : Str) (raw : JSValue) :
    ((∃ inp, validateInput raw = some inp) →
      runSecurity home cwd none raw = ⟨0, some (.block loadFailMsg)⟩) ∧
    (runSecurity home cwd none raw).output ≠ some .allowContinue ∧
    (∀ m, (runSecurity home cwd none raw).output ≠ some (.ask m)) := by
  cases h : validateInput raw with
  | none =>
    refine ⟨?_, ?_, ?_⟩
    · rintro ⟨inp, hi⟩
      simp at hi
    · simp [runSecurity, h]
    · simp [runSecurity, h]
  | some inp =>
    refine ⟨?_, ?_, ?_⟩
    · intro _
      simp [runSecurity, h]
    · simp [runSecurity, h, loadFailMsg]
    · simp [runSecurity, h, loadFailMsg]

/-- Witness for C1 at a concrete Bash payload. -/
theorem security_load_failure_blocks_witness :
    runSecurity homeU cwd0 none
        (mkPayload "Bash" [("command".data, .str "ls".data)]) =
      ⟨0, some (.block loadFailMsg)⟩ :=
  (security_load_failure_blocks homeU cwd0 _).1 ⟨_, rfl⟩

/-! ## C2 — malformed input handling

The claim says every malformed input (including a Bash invocation whose
`command` is missing or not a string) both returns a block outcome and
exits with status 2.  The code exits with status 2 only for payloads
failing structural validation; a validated Bash payload with a missing
or non-string `command` prints a block decision and exits with the
normal status 0 (the repository's tests assert exactly this exit
status). -/

/-- C2 counterexample: a Bash payload whose `command` is the number
123 yields a block decision with exit status 0, not the abnormal exit
status 2 the claim requires. -/
theorem bash_nonstring_command_exit_counterexample :
    (runSecurity homeU cwd0 (some emptyPatterns)
        (mkPayload "Bash" [("command".data, .num 123)])).exitCode ≠ 2 ∧
    (runSecurity homeU cwd0 (some emptyPatterns)
        (mkPayload "Bash" [("command".data, .num 123)])).output =
      some (.block bashMissingMsg) := by
  constructor
  · decide
  · rfl

/-- C2 amended: a payload failing structural validation (missing or
mistyped `tool_name`, `session_id` or `tool_input`) terminates with the
abnormal exit status 2 and emits no decision, while a validated Bash
payload whose `command` field is missing or not a string emits a block
decision and terminates with the normal exit status 0. -/
theorem security_malformed_input_behavior :
    (∀ (home cwd : Str) (pats : Option SecurityPatterns) (raw : JSValue),
      validateInput raw = none → runSecurity home cwd pats raw = ⟨2, none⟩) ∧
    (∀ (home cwd : Str) (P : SecurityPatterns) (raw : JSValue) (inp : HookInput),
      validateInput raw = some inp → inp.tool_name = "Bash".data →
      extractCommand inp.tool_input = none →
      runSecurity home cwd (some P) raw = ⟨0, some (.block bashMissingMsg)⟩) := by
  constructor
  · intro home cwd pats raw h
    simp [runSecurity, h]
  · intro home cwd P raw inp h hname hcmd
    simp [runSecurity, h, hname, hcmd]

/-- Witness for C2 (amended) at concrete inputs: a bare number payload
exits 2 silently; a Bash payload without a `command` string blocks with
exit 0. -/
theorem security_malformed_input_behavior_witness :
    runSecurity homeU cwd0 (some emptyPatterns) (.num 3) = ⟨2, none⟩ ∧
    runSecurity homeU cwd0 (some emptyPatterns) (mkPayload "Bash" []) =
      ⟨0, some (.block bashMissingMsg)⟩ :=
  ⟨security_malformed_input_behavior.1 homeU cwd0 (some emptyPatterns) (.num 3) rfl,
   security_malformed_input_behavior.2 homeU cwd0 emptyPatterns (mkPayload "Bash" [])
     ⟨"Bash".data, .obj [], "s".data⟩ rfl rfl rfl⟩

/-! ## C5 — the normalizer equals its one-pass specification -/

theorem bracedTok_eq : "${HOME}".data = '$' :: "{HOME}".data := rfl

theorem bareTok_eq : "$HOME".data = '$' :: "HOME".data := rfl

theorem bracedStep_some (l : Str) (k : Nat) (h : bracedStep l = some k) :
    k = 7 ∧ "${HOME}".data.isPrefixOf l = true := by
  simp only [bracedStep] at h
  split at h
  · cases h; exact ⟨rfl, by assumption⟩
  · cases h

theorem bracedStep_cons_ne (c : Char) (t : Str) (hc : c ≠ '$') :
    bracedStep (c :: t) = none := by
  simp only [bracedStep, bracedTok_eq, List.isPrefixOf]
  have h0 : ('$' == c) = false := by simpa using fun h => hc h.symm
  simp [h0]

theorem bareHomeStep_cons_ne (c : Char) (t : Str) (hc : c ≠ '$') :
    bareHomeStep (c :: t) = none := by
  simp only [bareHomeStep, bareTok_eq, List.isPrefixOf]
  have h0 : ('$' == c) = false := by simpa using fun h => hc h.symm
  simp [h0]

/-- The braced replacement never changes whether the first remaining
character is a word character. -/
theorem wd_head_replaceBraced (x : Str) :
    wd ((replaceBraced x).head?) = wd (x.head?) := by
  cases x with
  | nil => rfl
  | cons c t =>
    cases hs : bracedStep (c :: t) with
    | some k =>
      obtain ⟨hk, hp⟩ := bracedStep_some _ _ hs
      have hc : c = '$' := by
        rw [bracedTok_eq, List.isPrefixOf] at hp
        simp only [Bool.and_eq_true, beq_iff_eq] at hp
        exact hp.1.symm
      have hrw := scanRun_cons_repl bracedStep bracedStep_pos c t k hs
      simp only [replaceBraced]
      rw [hrw, hc]
      rfl
    | none =>
      have hrw := scanRun_cons_copy bracedStep c t hs
      simp only [replaceBraced]
      rw [hrw]
      rfl

/-- If a nonempty suffix of `HOME` is a prefix of the braced-replaced
text, it was already a prefix of the original text (the replacement
only inserts `~`, which occurs in none of these tokens). -/
theorem homeSuffix_isPrefixOf_replaceBraced :
    ∀ (x : Str) (s : Str),
      s ∈ [("HOME".data : Str), "OME".data, "ME".data, "E".data] →
      s.isPrefixOf (replaceBraced x) = true → s.isPrefixOf x = true := by
  intro x
  induction x with
  | nil =>
    intro s hm hp
    have : replaceBraced [] = [] := rfl
    rw [this] at hp
    fin_cases hm <;> simp [List.isPrefixOf] at hp
  | cons c t ih =>
    intro s hm hp
    cases hs : bracedStep (c :: t) with
    | some k =>
      have hrw := scanRun_cons_repl bracedStep bracedStep_pos c t k hs
      simp only [replaceBraced] at hp
      rw [hrw] at hp
      fin_cases hm <;> simp [List.isPrefixOf] at hp
    | none =>
      have hrw := scanRun_cons_copy bracedStep c t hs
      simp only [replaceBraced] at hp
      rw [hrw] at hp
      fin_cases hm
      · simp only [List.isPrefixOf, Bool.and_eq_true, beq_iff_eq] at hp ⊢
        exact ⟨hp.1, ih "OME".data (by simp) hp.2⟩
      · simp only [List.isPrefixOf, Bool.and_eq_true, beq_iff_eq] at hp ⊢
        exact ⟨hp.1, ih "ME".data (by simp) hp.2⟩
      · simp only [List.isPrefixOf, Bool.and_eq_true, beq_iff_eq] at hp ⊢
        exact ⟨hp.1, ih "E".data (by simp) hp.2⟩
      · simp only [List.isPrefixOf, Bool.and_eq_true, beq_iff_eq] at hp ⊢
        exact ⟨hp.1, by simp [List.isPrefixOf]⟩

/-- Fuel-indexed form of the equivalence between the two-pass source
normalizer and the one-pass specification normalizer. -/
theorem normalize_spec_aux :
    ∀ (n : Nat) (l : Str), l.length ≤ n →
      replaceBareHome (replaceBraced l) = specNormalizeHome l := by
  intro n
  induction n with
  | zero =>
    intro l hl
    have h0 : l = [] := List.length_eq_zero.mp (Nat.le_zero.mp hl)
    subst h0
    rfl
  | succ n ih =>
    intro l hl
    cases l with
    | nil => rfl
    | cons c t =>
      cases hb : bracedStep (c :: t) with
      | some k =>
        obtain ⟨hk, _⟩ := bracedStep_some _ _ hb
        subst hk
        have hrb := scanRun_cons_repl bracedStep bracedStep_pos c t 7 hb
        have hspec : specHomeTokenStep (c :: t) = some 7 := by
          simp [specHomeTokenStep, hb]
        have hns := scanRun_cons_repl specHomeTokenStep specHomeTokenStep_pos c t 7 hspec
        have hlen : ((c :: t).drop 7).length ≤ n := by
          simp only [List.length_drop, List.length_cons]
          simp only [List.length_cons] at hl
          omega
        have hcopy : bareHomeStep ('~' :: replaceBraced ((c :: t).drop 7)) = none :=
          bareHomeStep_cons_ne _ _ (by decide)
        calc replaceBareHome (replaceBraced (c :: t))
            = replaceBareHome ('~' :: replaceBraced ((c :: t).drop 7)) := by
              simp only [replaceBraced] at hrb ⊢
              rw [hrb]
          _ = '~' :: replaceBareHome (replaceBraced ((c :: t).drop 7)) := by
              simp only [replaceBareHome]
              exact scanRun_cons_copy bareHomeStep _ _ hcopy
          _ = '~' :: specNormalizeHome ((c :: t).drop 7) := by rw [ih _ hlen]
          _ = specNormalizeHome (c :: t) := by
              simp only [specNormalizeHome]
              rw [hns]
      | none =>
        by_cases hbare : "$HOME".data.isPrefixOf (c :: t) = true
        · obtain ⟨u, hu⟩ := List.isPrefixOf_iff_prefix.mp hbare
          have hct : c :: t = '$' :: 'H' :: 'O' :: 'M' :: 'E' :: u := by
            rw [← hu]
            rfl
          have hc : c = '$' := by
            simpa using congrArg List.head? hct
          subst hc
          have ht : t = 'H' :: 'O' :: 'M' :: 'E' :: u := by
            simpa using congrArg List.tail hct
          subst ht
          have e0 : scanRun bracedStep ('$' :: 'H' :: 'O' :: 'M' :: 'E' :: u) =
              '$' :: scanRun bracedStep ('H' :: 'O' :: 'M' :: 'E' :: u) :=
            scanRun_cons_copy _ _ _ hb
          have e1 : scanRun bracedStep ('H' :: 'O' :: 'M' :: 'E' :: u) =
              'H' :: scanRun bracedStep ('O' :: 'M' :: 'E' :: u) :=
            scanRun_cons_copy _ _ _ (bracedStep_cons_ne _ _ (by decide))
          have e2 : scanRun bracedStep ('O' :: 'M' :: 'E' :: u) =
              'O' :: scanRun bracedStep ('M' :: 'E' :: u) :=
            scanRun_cons_copy _ _ _ (bracedStep_cons_ne _ _ (by decide))
          have e3 : scanRun bracedStep ('M' :: 'E' :: u) =
              'M' :: scanRun bracedStep ('E' :: u) :=
            scanRun_cons_copy _ _ _ (bracedStep_cons_ne _ _ (by decide))
          have e4 : scanRun bracedStep ('E' :: u) = 'E' :: scanRun bracedStep u :=
            scanRun_cons_copy _ _ _ (bracedStep_cons_ne _ _ (by decide))
          have erbt : replaceBraced ('H' :: 'O' :: 'M' :: 'E' :: u) =
              'H' :: 'O' :: 'M' :: 'E' :: replaceBraced u := by
            simp only [replaceBraced]
            rw [e1, e2, e3, e4]
          have erb : replaceBraced ('$' :: 'H' :: 'O' :: 'M' :: 'E' :: u) =
              '$' :: 'H' :: 'O' :: 'M' :: 'E' :: replaceBraced u := by
            simp only [replaceBraced]
            rw [e0, e1, e2, e3, e4]
          cases hwdu : wd u.head? with
          | false =>
            have hwrb : wd (replaceBraced u).head? = false := by
              rw [wd_head_replaceBraced]
              exact hwdu
            have hstep : bareHomeStep ('$' :: 'H' :: 'O' :: 'M' :: 'E' :: replaceBraced u) =
                some 5 := by
              simp [bareHomeStep, List.isPrefixOf, hwrb]
            have erh : replaceBareHome ('$' :: 'H' :: 'O' :: 'M' :: 'E' :: replaceBraced u) =
                '~' :: replaceBareHome (replaceBraced u) := by
              simp only [replaceBareHome]
              have hr := scanRun_cons_repl bareHomeStep bareHomeStep_pos '$'
                ('H' :: 'O' :: 'M' :: 'E' :: replaceBraced u) 5 hstep
              simpa using hr
            have hlen5 : u.length ≤ n := by
              simp only [List.length_cons] at hl
              omega
            have hspec : specHomeTokenStep ('$' :: 'H' :: 'O' :: 'M' :: 'E' :: u) = some 5 := by
              simp [specHomeTokenStep, hb, bareHomeStep, List.isPrefixOf, hwdu]
            have hns := scanRun_cons_repl specHomeTokenStep specHomeTokenStep_pos '$'
              ('H' :: 'O' :: 'M' :: 'E' :: u) 5 hspec
            calc replaceBareHome (replaceBraced ('$' :: 'H' :: 'O' :: 'M' :: 'E' :: u))
                = replaceBareHome ('$' :: 'H' :: 'O' :: 'M' :: 'E' :: replaceBraced u) := by
                  rw [erb]
              _ = '~' :: replaceBareHome (replaceBraced u) := erh
              _ = '~' :: specNormalizeHome u := by rw [ih _ hlen5]
              _ = specNormalizeHome ('$' :: 'H' :: 'O' :: 'M' :: 'E' :: u) := by
                  simp only [specNormalizeHome]
                  simpa using hns.symm
          | true =>
            have hwrb : wd (replaceBraced u).head? = true := by
              rw [wd_head_replaceBraced]
              exact hwdu
            have hstep : bareHomeStep ('$' :: 'H' :: 'O' :: 'M' :: 'E' :: replaceBraced u) =
                none := by
              simp [bareHomeStep, List.isPrefixOf, hwrb]
            have erh : replaceBareHome ('$' :: 'H' :: 'O' :: 'M' :: 'E' :: replaceBraced u) =
                '$' :: replaceBareHome ('H' :: 'O' :: 'M' :: 'E' :: replaceBraced u) := by
              simp only [replaceBareHome]
              exact scanRun_cons_copy _ _ _ hstep
            have hlent : ('H' :: 'O' :: 'M' :: 'E' :: u).length ≤ n := by
              simp only [List.length_cons] at hl ⊢
              omega
            have hspec : specHomeTokenStep ('$' :: 'H' :: 'O' :: 'M' :: 'E' :: u) = none := by
              simp [specHomeTokenStep, hb, bareHomeStep, List.isPrefixOf, hwdu]
            have hns := scanRun_cons_copy specHomeTokenStep '$' ('H' :: 'O' :: 'M' :: 'E' :: u) hspec
            calc replaceBareHome (replaceBraced ('$' :: 'H' :: 'O' :: 'M' :: 'E' :: u))
                = replaceBareHome ('$' :: 'H' :: 'O' :: 'M' :: 'E' :: replaceBraced u) := by
                  rw [erb]
              _ = '$' :: replaceBareHome ('H' :: 'O' :: 'M' :: 'E' :: replaceBraced u) := erh
              _ = '$' :: replaceBareHome (replaceBraced ('H' :: 'O' :: 'M' :: 'E' :: u)) := by
                  rw [erbt]
              _ = '$' :: specNormalizeHome ('H' :: 'O' :: 'M' :: 'E' :: u) := by rw [ih _ hlent]
              _ = specNormalizeHome ('$' :: 'H' :: 'O' :: 'M' :: 'E' :: u) := by
                  simp only [specNormalizeHome]
                  rw [hns]
        · have erb : replaceBraced (c :: t) = c :: replaceBraced t := by
            simp only [replaceBraced]
            exact scanRun_cons_copy _ _ _ hb
          have hstepn : bareHomeStep (c :: replaceBraced t) = none := by
            cases hpp : "$HOME".data.isPrefixOf (c :: replaceBraced t) with
            | false => simp [bareHomeStep, hpp]
            | true =>
              exfalso
              rw [bareTok_eq, List.isPrefixOf] at hpp
              simp only [Bool.and_eq_true, beq_iff_eq] at hpp
              obtain ⟨hc, hrest⟩ := hpp
              have hto := homeSuffix_isPrefixOf_replaceBraced t "HOME".data (by simp) hrest
              apply hbare
              rw [bareTok_eq, List.isPrefixOf]
              simp [← hc, hto]
          have erh : replaceBareHome (c :: replaceBraced t) =
              c :: replaceBareHome (replaceBraced t) := by
            simp only [replaceBareHome]
            exact scanRun_cons_copy _ _ _ hstepn
          have hspec : specHomeTokenStep (c :: t) = none := by
            simp only [specHomeTokenStep, hb]
            cases hq : "$HOME".data.isPrefixOf (c :: t) with
            | false => simp [bareHomeStep, hq]
            | true => exact absurd hq hbare
          have hns := scanRun_cons_copy specHomeTokenStep c t hspec
          have hlent : t.length ≤ n := by
            simp only [List.length_cons] at hl
            omega
          calc replaceBareHome (replaceBraced (c :: t))
              = replaceBareHome (c :: replaceBraced t) := by rw [erb]
            _ = c :: replaceBareHome (replaceBraced t) := erh
            _ = c :: specNormalizeHome t := by rw [ih _ hlent]
            _ = specNormalizeHome (c :: t) := by
                simp only [specNormalizeHome]
                rw [hns]

/-- C5: the text normalizer is the pure function that replaces each
home-directory indirection token — braced `${HOME}` and word-bounded
bare `$HOME` — by the single sentinel `~` in one left-to-right pass,
altering no other character: the sequential two-replacement source
implementation coincides with the one-pass token-replacement
specification on every input string. -/
theorem normalizeHomeTokens_eq_spec (l : Str) :
    normalizeHomeTokens l = specNormalizeHome l :=
  normalize_spec_aux l.length l (le_refl _)

/-! ## C3 — zero-access path containment -/

/-- Characterization of `runSecurity` for a validated non-Bash tool:
the outcome is decided by the path section alone. -/
theorem runSecurity_path_tool (home cwd : Str) (P : SecurityPatterns) (raw : JSValue)
    (inp : HookInput) (h : validateInput raw = some inp) (hn : inp.tool_name ≠ "Bash".data) :
    runSecurity home cwd (some P) raw =
      match pathSection home cwd P inp.tool_name inp.tool_input with
      | some d => ⟨0, some d⟩
      | none => ⟨0, some .allowContinue⟩ := by
  simp [runSecurity, h, hn]

/-- C3 counterexample: with zero-access path `/home/u/.ssh`, a Read of
`/home/u/.sshx` is blocked although its canonical path is neither equal
to nor a descendant of the protected path — the check is a plain string
prefix, not directory containment as the claim states. -/
theorem path_noncontained_blocked_counterexample :
    (runSecurity homeU cwd0 (some sshPatterns)
        (mkPayload "Read" [("file_path".data, .str "/home/u/.sshx".data)])).output =
      some (.block (pathBlockMsg "/home/u/.sshx".data)) ∧
    isContainedIn (resolvePath cwd0 (expandPath homeU "/home/u/.sshx".data))
        "/home/u/.ssh".data = false := by
  constructor
  · rfl
  · rfl

/-- C3 (amended): for Write, Edit, or Read with a `file_path` string,
the engine blocks exactly when the canonical absolute form of the path
(after `~`, `$HOME`, `${HOME}` expansion and `..` resolution) has the
canonical form of some zeroAccess path as a *string prefix* — which
covers equality and descendants, but also sibling names extending a
protected path without a separator; and any two spellings with the same
canonical form receive the same decision kind. -/
theorem path_zeroAccess_decision :
    (∀ (home cwd : Str) (P : SecurityPatterns) (raw : JSValue) (inp : HookInput) (fp : Str),
      validateInput raw = some inp →
      (inp.tool_name = "Write".data ∨ inp.tool_name = "Edit".data ∨
        inp.tool_name = "Read".data) →
      extractPath inp.tool_input = some fp →
      ((runSecurity home cwd (some P) raw).output = some (.block (pathBlockMsg fp)) ↔
        ∃ pp ∈ P.zeroAccess,
          (resolvePath cwd pp).isPrefixOf (resolvePath cwd (expandPath home fp)) = true)) ∧
    (∀ (home cwd : Str) (P : SecurityPatterns) (raw₁ raw₂ : JSValue)
        (inp₁ inp₂ : HookInput) (fp₁ fp₂ : Str),
      validateInput raw₁ = some inp₁ → validateInput raw₂ = some inp₂ →
      inp₁.tool_name = inp₂.tool_name →
      (inp₁.tool_name = "Write".data ∨ inp₁.tool_name = "Edit".data ∨
        inp₁.tool_name = "Read".data) →
      extractPath inp₁.tool_input = some fp₁ → extractPath inp₂.tool_input = some fp₂ →
      resolvePath cwd (expandPath home fp₁) = resolvePath cwd (expandPath home fp₂) →
      decisionKind (runSecurity home cwd (some P) raw₁).output =
        decisionKind (runSecurity home cwd (some P) raw₂).output) := by
  constructor
  · intro home cwd P raw inp fp h htool hfp
    have hn : inp.tool_name ≠ "Bash".data := by
      rcases htool with h1 | h1 | h1 <;> rw [h1] <;> decide
    rw [runSecurity_path_tool home cwd P raw inp h hn]
    have key : (match pathSection home cwd P inp.tool_name inp.tool_input with
        | some d => (⟨0, some d⟩ : Outcome)
        | none => ⟨0, some .allowContinue⟩).output = some (.block (pathBlockMsg fp)) ↔
        (P.zeroAccess.find? (fun pp =>
          (resolvePath cwd pp).isPrefixOf (resolvePath cwd (expandPath home fp)))).isSome =
          true := by
      cases hfind : P.zeroAccess.find? (fun pp =>
          (resolvePath cwd pp).isPrefixOf (resolvePath cwd (expandPath home fp))) with
      | some pp => simp [pathSection, hfp, hfind]
      | none =>
        simp only [pathSection, hfp, hfind, Option.isSome_none]
        by_cases hw : inp.tool_name = "Write".data ∨ inp.tool_name = "Edit".data
        · simp only [hw, if_true]
          cases hcw : P.confirmWrite.find?
              (fun cp => containsSub (resolvePath cwd (expandPath home fp)) cp) with
          | some cp => simp [hcw]
          | none => simp [hcw]
        · simp [hw]
    rw [key, List.find?_isSome]
  · intro home cwd P raw₁ raw₂ inp₁ inp₂ fp₁ fp₂ h1 h2 hsame htool hfp1 hfp2 heq
    have hn1 : inp₁.tool_name ≠ "Bash".data := by
      rcases htool with h | h | h <;> rw [h] <;> decide
    have hn2 : inp₂.tool_name ≠ "Bash".data := by rw [← hsame]; exact hn1
    rw [runSecurity_path_tool home cwd P raw₁ inp₁ h1 hn1,
      runSecurity_path_tool home cwd P raw₂ inp₂ h2 hn2]
    simp only [pathSection, hfp1, hfp2, heq, ← hsame]
    cases hfind : P.zeroAccess.find?
        (fun pp => (resolvePath cwd pp).isPrefixOf (resolvePath cwd (expandPath home fp₂))) with
    | some pp => simp [decisionKind, decisionClass]
    | none =>
      simp only []
      by_cases hw : inp₁.tool_name = "Write".data ∨ inp₁.tool_name = "Edit".data
      · simp only [hw, if_true]
        cases hcw : P.confirmWrite.find?
            (fun cp => containsSub (resolvePath cwd (expandPath home fp₂)) cp) with
        | some cp => simp [decisionKind, decisionClass]
        | none => simp [decisionKind, decisionClass]
      · simp [hw, decisionKind, decisionClass]

/-- Witness for C3 (amended) at concrete inputs: a Read of
`/home/u/.ssh/id_rsa` is blocked under zero-access `/home/u/.ssh`, and
the `~`- and `${HOME}`-spellings of that path receive the same decision
kind. -/
theorem path_zeroAccess_decision_witness :
    (runSecurity homeU cwd0 (some sshPatterns)
        (mkPayload "Read" [("file_path".data, .str "/home/u/.ssh/id_rsa".data)])).output =
      some (.block (pathBlockMsg "/home/u/.ssh/id_rsa".data)) ∧
    decisionKind (runSecurity homeU cwd0 (some sshPatterns)
        (mkPayload "Read" [("file_path".data, .str "~/.ssh/id_rsa".data)])).output =
      decisionKind (runSecurity homeU cwd0 (some sshPatterns)
        (mkPayload "Read" [("file_path".data, .str "${HOME}/.ssh/id_rsa".data)])).output :=
  ⟨(path_zeroAccess_decision.1 homeU cwd0 sshPatterns
      (mkPayload "Read" [("file_path".data, .str "/home/u/.ssh/id_rsa".data)])
      ⟨"Read".data, .obj [("file_path".data, .str "/home/u/.ssh/id_rsa".data)], "s".data⟩
      "/home/u/.ssh/id_rsa".data rfl (Or.inr (Or.inr rfl)) rfl).mpr
      ⟨"/home/u/.ssh".data, by simp [sshPatterns], by rfl⟩,
   path_zeroAccess_decision.2 homeU cwd0 sshPatterns
      (mkPayload "Read" [("file_path".data, .str "~/.ssh/id_rsa".data)])
      (mkPayload "Read" [("file_path".data, .str "${HOME}/.ssh/id_rsa".data)])
      ⟨"Read".data, .obj [("file_path".data, .str "~/.ssh/id_rsa".data)], "s".data⟩
      ⟨"Read".data, .obj [("file_path".data, .str "${HOME}/.ssh/id_rsa".data)], "s".data⟩
      "~/.ssh/id_rsa".data "${HOME}/.ssh/id_rsa".data rfl rfl rfl
      (Or.inr (Or.inr rfl)) rfl rfl (by rfl)⟩

/-! ## C4 — Bash command evaluation order -/

/-- C4 counterexample: a command matching a declared confirm pattern
and also containing a canonical protected-path string is *blocked*, not
asked — the protected-path containment check runs before the confirm
patterns, contrary to the claimed order. -/
theorem confirm_protected_order_counterexample :
    (confirmProtPatterns.cmdConfirm.find? (fun p =>
      p.test (normalizeHomeTokens "git push --force /home/u/.ssh".data))).isSome = true ∧
    runSecurity homeU cwd0 (some confirmProtPatterns)
        (mkPayload "Bash" [("command".data, .str "git push --force /home/u/.ssh".data)]) =
      ⟨0, some (.block protectedRefMsg)⟩ := by
  constructor
  · rfl
  · rfl

/-- C4 (amended): for a Bash invocation with a string command the
engine normalizes the command and then tests, in this order: the block
patterns in declared order (first match wins), then the protected-path
containment check, then the confirm patterns in declared order; a
command surviving all three (with no `file_path` in its input) is
allowed.  In particular a command matching a confirm pattern and also
containing a protected-path reference yields block, not ask. -/
theorem bash_evaluation_order
    (home cwd : Str) (P : SecurityPatterns) (raw : JSValue) (inp : HookInput) (cmd : Str)
    (h : validateInput raw = some inp) (hname : inp.tool_name = "Bash".data)
    (hcmd : extractCommand inp.tool_input = some cmd) :
    (∀ p, P.cmdBlock.find? (fun q => q.test (normalizeHomeTokens cmd)) = some p →
      runSecurity home cwd (some P) raw = ⟨0, some (.block (blockPatternMsg p.source))⟩) ∧
    (P.cmdBlock.find? (fun q => q.test (normalizeHomeTokens cmd)) = none →
      commandReferencesProtectedPath home cwd (normalizeHomeTokens cmd) P.zeroAccess = true →
      runSecurity home cwd (some P) raw = ⟨0, some (.block protectedRefMsg)⟩) ∧
    (P.cmdBlock.find? (fun q => q.test (normalizeHomeTokens cmd)) = none →
      commandReferencesProtectedPath home cwd (normalizeHomeTokens cmd) P.zeroAccess = false →
      ∀ q, P.cmdConfirm.find? (fun r => r.test (normalizeHomeTokens cmd)) = some q →
      runSecurity home cwd (some P) raw = ⟨0, some (.ask (confirmPatternMsg q.source))⟩) ∧
    (P.cmdBlock.find? (fun q => q.test (normalizeHomeTokens cmd)) = none →
      commandReferencesProtectedPath home cwd (normalizeHomeTokens cmd) P.zeroAccess = false →
      P.cmdConfirm.find? (fun r => r.test (normalizeHomeTokens cmd)) = none →
      extractPath inp.tool_input = none →
      runSecurity home cwd (some P) raw = ⟨0, some .allowContinue⟩) := by
  refine ⟨?_, ?_, ?_, ?_⟩
  · intro p hp
    simp [runSecurity, h, hname, hcmd, bashSection, hp]
  · intro hb href
    simp [runSecurity, h, hname, hcmd, bashSection, hb, href]
  · intro hb href q hq
    simp [runSecurity, h, hname, hcmd, bashSection, hb, href, hq]
  · intro hb href hq hfp
    simp [runSecurity, h, hname, hcmd, bashSection, hb, href, hq, pathSection, hfp]

/-- Witness for C4 (amended), exercising all four outcome cases at
concrete commands and pattern sets. -/
theorem bash_evaluation_order_witness :
    runSecurity homeU cwd0 (some blockOnlyPatterns)
        (mkPayload "Bash" [("command".data, .str "rm -rf /".data)]) =
      ⟨0, some (.block (blockPatternMsg "rm -rf".data))⟩ ∧
    runSecurity homeU cwd0 (some confirmProtPatterns)
        (mkPayload "Bash" [("command".data, .str "git push --force /home/u/.ssh".data)]) =
      ⟨0, some (.block protectedRefMsg)⟩ ∧
    runSecurity homeU cwd0 (some confirmProtPatterns)
        (mkPayload "Bash" [("command".data, .str "git push --force origin".data)]) =
      ⟨0, some (.ask (confirmPatternMsg "git push --force".data))⟩ ∧
    runSecurity homeU cwd0 (some emptyPatterns)
        (mkPayload "Bash" [("command".data, .str "ls -la".data)]) =
      ⟨0, some .allowContinue⟩ :=
  ⟨(bash_evaluation_order homeU cwd0 blockOnlyPatterns
      (mkPayload "Bash" [("command".data, .str "rm -rf /".data)])
      ⟨"Bash".data, .obj [("command".data, .str "rm -rf /".data)], "s".data⟩
      "rm -rf /".data rfl rfl rfl).1
      ⟨fun c => containsSub c "rm -rf".data, "rm -rf".data⟩ rfl,
   (bash_evaluation_order homeU cwd0 confirmProtPatterns
      (mkPayload "Bash" [("command".data, .str "git push --force /home/u/.ssh".data)])
      ⟨"Bash".data, .obj [("command".data, .str "git push --force /home/u/.ssh".data)], "s".data⟩
      "git push --force /home/u/.ssh".data rfl rfl rfl).2.1 rfl rfl,
   (bash_evaluation_order homeU cwd0 confirmProtPatterns
      (mkPayload "Bash" [("command".data, .str "git push --force origin".data)])
      ⟨"Bash".data, .obj [("command".data, .str "git push --force origin".data)], "s".data⟩
      "git push --force origin".data rfl rfl rfl).2.2.1 rfl rfl
      ⟨fun c => containsSub c "git push --force".data, "git push --force".data⟩ rfl,
   (bash_evaluation_order homeU cwd0 emptyPatterns
      (mkPayload "Bash" [("command".data, .str "ls -la".data)])
      ⟨"Bash".data, .obj [("command".data, .str "ls -la".data)], "s".data⟩
      "ls -la".data rfl rfl rfl).2.2.2 rfl rfl rfl rfl⟩

/-! ## C9 — activation engine fails open -/

/-- C9: when the rule declaration file is absent, or present but
unreadable/unparseable, the activation engine produces no output, makes
no cooldown change, and terminates with the normal completion signal
(exit 0) — for every payload. -/
theorem activation_load_failure_silent
    (cwd : Str) (now : Int) (skillContent : Str → Option Str) (cm : CooldownMap)
    (input : Option PromptInput) (load : RulesLoad)
    (hload : load = .absent ∨ load = .malformed) :
    runSkillEval cwd now skillContent cm input load = ⟨none, 0, cm⟩ := by
  rcases hload with rfl | rfl <;>
  · cases input with
    | none => rfl
    | some inp =>
      by_cases hp : inp.prompt.isEmpty <;> simp [runSkillEval, hp]

/-- Witness for C9 at a concrete payload and both failure kinds. -/
theorem activation_load_failure_silent_witness :
    runSkillEval cwd0 0 (fun _ => none) cmEmpty (some ⟨promptCreate, "s".data⟩) .malformed =
      ⟨none, 0, cmEmpty⟩ ∧
    runSkillEval cwd0 0 (fun _ => none) cmEmpty (some ⟨promptCreate, "s".data⟩) .absent =
      ⟨none, 0, cmEmpty⟩ :=
  ⟨activation_load_failure_silent cwd0 0 (fun _ => none) cmEmpty
      (some ⟨promptCreate, "s".data⟩) .malformed (Or.inr rfl),
   activation_load_failure_silent cwd0 0 (fun _ => none) cmEmpty
      (some ⟨promptCreate, "s".data⟩) .absent (Or.inl rfl)⟩

/-! ## Membership lemmas for the scoring pipeline -/

theorem mem_insertByScore {x y : ScoredMatch} {l : List ScoredMatch}
    (h : x ∈ insertByScore y l) : x = y ∨ x ∈ l := by
  induction l with
  | nil =>
    simp only [insertByScore] at h
    rcases List.mem_singleton.mp h with rfl
    exact Or.inl rfl
  | cons z zs ih =>
    simp only [insertByScore] at h
    split at h
    · rcases List.mem_cons.mp h with rfl | h2
      · exact Or.inl rfl
      · exact Or.inr h2
    · rcases List.mem_cons.mp h with rfl | h2
      · exact Or.inr (List.mem_cons_self _ _)
      · rcases ih h2 with rfl | h3
        · exact Or.inl rfl
        · exact Or.inr (List.mem_cons_of_mem _ h3)

theorem mem_sortByScoreDesc {x : ScoredMatch} {l : List ScoredMatch}
    (h : x ∈ sortByScoreDesc l) : x ∈ l := by
  induction l with
  | nil => simp [sortByScoreDesc] at h
  | cons y ys ih =>
    have h2 : x ∈ insertByScore y (sortByScoreDesc ys) := h
    rcases mem_insertByScore h2 with rfl | h3
    · exact List.mem_cons_self _ _
    · exact List.mem_cons_of_mem _ (ih h3)

theorem scoreRule_rule_eq {prompt cwd : Str} {rule : Rule} {dw : Weights} {dt : ℚ}
    {m : ScoredMatch} (h : scoreRule prompt cwd rule dw dt = some m) : m.rule = rule := by
  simp only [scoreRule] at h
  split at h
  · cases h
  · split at h
    · cases h
    · split at h
      · cases h
      · cases h
        rfl

theorem considerRule_some {prompt cwd : Str} {cm : CooldownMap} {now : Int}
    {dw : Weights} {dt : ℚ} {rule : Rule} {m : ScoredMatch}
    (h : considerRule prompt cwd cm now dw dt rule = some m) :
    m.rule = rule ∧ rule.type = RuleType.proactive ∧
      scoreRule prompt cwd rule dw dt = some m := by
  simp only [considerRule] at h
  split at h
  · cases h
  · split at h
    · cases h
    · refine ⟨scoreRule_rule_eq h, ?_, h⟩
      by_contra hne
      simp_all

theorem mem_topMatches {m : ScoredMatch} {prompt cwd : Str} {cm : CooldownMap}
    {now : Int} {R : SkillRules} (h : m ∈ topMatches prompt cwd cm now R) :
    ∃ rule ∈ R.rules,
      considerRule prompt cwd cm now R.defaults.weights R.defaults.threshold rule = some m := by
  have h2 : m ∈ sortByScoreDesc (R.rules.filterMap
      (considerRule prompt cwd cm now R.defaults.weights R.defaults.threshold)) :=
    List.take_subset _ _ h
  have h3 := mem_sortByScoreDesc h2
  obtain ⟨rule, hmem, hr⟩ := List.mem_filterMap.mp h3
  exact ⟨rule, hmem, hr⟩

/-! ## C10 — only proactive rules are considered -/

/-- C10: every match emitted at prompt-submit scoring stems from a rule
of type `proactive`; a `reactive` or `guard` rule never appears in the
emitted list (`topMatches` is exactly the list rendered into the
hook's output), whatever its score, priority, enforcement, or the
cooldown state. -/
theorem only_proactive_emitted
    (prompt cwd : Str) (cm : CooldownMap) (now : Int) (R : SkillRules) (m : ScoredMatch)
    (h : m ∈ topMatches prompt cwd cm now R) : m.rule.type = RuleType.proactive := by
  obtain ⟨rule, _, hcons⟩ := mem_topMatches h
  obtain ⟨hrule, hpro, _⟩ := considerRule_some hcons
  rw [hrule]
  exact hpro


/-- Concrete evaluation of the emitted list for the fixture rule set:
only the `CreateSkill` rule survives (the guard rule is not proactive,
the trigger-less rule does not participate). -/
theorem topMatches_fixture_eval :
    topMatches promptCreate cwd0 cmEmpty 0 fixtureRules =
      [⟨createSkillRule, 400 / 7, 40⟩] := by
  have h1 : matchKeywords promptCreate (strs ["skill", "hook"]) = 1 := by decide
  have h2 : matchIntents promptCreate (strs ["create"]) = 1 := by decide
  simp [strs] at h1 h2
  have hsc : scoreRule promptCreate cwd0 createSkillRule defaultWeightsFix 30 =
      some ⟨createSkillRule, 400 / 7, 40⟩ := by
    simp [scoreRule, ruleDims, createSkillRule, defaultWeightsFix, mergeWeights, h1, h2, strs]
    norm_num
  have hg : considerRule promptCreate cwd0 cmEmpty 0 defaultWeightsFix 30 guardRule = none := by
    simp [considerRule, guardRule]
  have hn : considerRule promptCreate cwd0 cmEmpty 0 defaultWeightsFix 30 noTriggerRule =
      none := by
    simp [considerRule, noTriggerRule, scoreRule, ruleDims]
  have hc : considerRule promptCreate cwd0 cmEmpty 0 defaultWeightsFix 30 createSkillRule =
      some ⟨createSkillRule, 400 / 7, 40⟩ := by
    simp [considerRule, show createSkillRule.type = RuleType.proactive from rfl,
      show createSkillRule.cooldown = none from rfl, hsc]
  simp [topMatches, fixtureRules, hg, hn, hc, sortByScoreDesc, insertByScore]

/-- Witness for C10: the concrete fixture emits exactly the
`CreateSkill` match, and the theorem certifies its rule type. -/
theorem only_proactive_emitted_witness :
    (⟨createSkillRule, 400 / 7, 40⟩ : ScoredMatch).rule.type = RuleType.proactive :=
  only_proactive_emitted promptCreate cwd0 cmEmpty 0 fixtureRules
    ⟨createSkillRule, 400 / 7, 40⟩
    (by rw [topMatches_fixture_eval]; exact List.mem_singleton.mpr rfl)

/-! ## C6 — rules with no matched dimension never participate -/

/-- C6: a rule for which no trigger dimension has at least one match —
including a rule whose declared trigger lists are all empty — is scored
as non-participating (`scoreRule` returns `none`) and never appears in
the emitted list, whatever the weights, thresholds, cooldowns and
surrounding rule set. -/
theorem zero_match_rule_excluded
    (prompt cwd : Str) (rule : Rule) (hzero : noMatchedDimension prompt cwd rule) :
    (∀ (dw : Weights) (dt : ℚ), scoreRule prompt cwd rule dw dt = none) ∧
    (∀ (cm : CooldownMap) (now : Int) (R : SkillRules) (m : ScoredMatch),
      m ∈ topMatches prompt cwd cm now R → m.rule ≠ rule) := by
  obtain ⟨hk, hp, hd, hi, hf⟩ := hzero
  have hscore : ∀ (dw : Weights) (dt : ℚ), scoreRule prompt cwd rule dw dt = none := by
    intro dw dt
    have hmem : ∀ d ∈ ruleDims prompt cwd rule (mergeWeights dw rule.weights),
        d.count = 0 := by
      intro d hd2
      simp only [ruleDims, List.mem_append] at hd2
      rcases hd2 with ((((h | h) | h) | h) | h) <;>
        · split at h
          · rw [List.mem_singleton.mp h]
            first
              | exact hk
              | exact hp
              | exact hd
              | exact hi
              | exact hf
          · simp at h
    have hsum : ((ruleDims prompt cwd rule (mergeWeights dw rule.weights)).map Dim.count).sum
        = 0 := by
      apply List.sum_eq_zero
      intro x hx
      obtain ⟨d, hd3, rfl⟩ := List.mem_map.mp hx
      exact hmem d hd3
    simp only [scoreRule]
    split
    · rfl
    · simp [hsum]
  refine ⟨hscore, ?_⟩
  intro cm now R m hm heq
  obtain ⟨rule2, _, hcons⟩ := mem_topMatches hm
  obtain ⟨hr2, _, hsc⟩ := considerRule_some hcons
  rw [heq] at hr2
  rw [← hr2] at hsc
  rw [hscore R.defaults.weights R.defaults.threshold] at hsc
  cases hsc

/-- Witness for C6: the trigger-less fixture rule is scored as
non-participating (first conjunct) and the fixture's only emitted match
is not that rule (second conjunct). -/
theorem zero_match_rule_excluded_witness :
    scoreRule promptCreate cwd0 noTriggerRule defaultWeightsFix 30 = none ∧
    (⟨createSkillRule, 400 / 7, 40⟩ : ScoredMatch).rule ≠ noTriggerRule :=
  ⟨(zero_match_rule_excluded promptCreate cwd0 noTriggerRule
      ⟨rfl, rfl, rfl, rfl, rfl⟩).1 defaultWeightsFix 30,
   (zero_match_rule_excluded promptCreate cwd0 noTriggerRule
      ⟨rfl, rfl, rfl, rfl, rfl⟩).2 cmEmpty 0 fixtureRules ⟨createSkillRule, 400 / 7, 40⟩
      (by rw [topMatches_fixture_eval]; exact List.mem_singleton.mpr rfl)⟩

/-! ## C7 — the scoring formula -/

theorem ruleDims_count_sum (p c : Str) (r : Rule) (w : Weights) :
    ((ruleDims p c r w).map Dim.count).sum = totalMatchesSpec p c r := by
  unfold ruleDims totalMatchesSpec
  by_cases h1 : r.triggers.keywords.isEmpty <;>
  by_cases h2 : r.triggers.patterns.isEmpty <;>
  by_cases h3 : r.triggers.directories.isEmpty <;>
  by_cases h4 : r.triggers.intents.isEmpty <;>
  by_cases h5 : r.triggers.fileTypes.isEmpty <;>
  simp [h1, h2, h3, h4, h5] <;> omega

theorem ruleDims_raw_sum (p c : Str) (r : Rule) (w : Weights) :
    ((ruleDims p c r w).map fun d => (d.count : ℚ) * d.weight).sum = rawScoreSpec p c r w := by
  unfold ruleDims rawScoreSpec
  by_cases h1 : r.triggers.keywords.isEmpty <;>
  by_cases h2 : r.triggers.patterns.isEmpty <;>
  by_cases h3 : r.triggers.directories.isEmpty <;>
  by_cases h4 : r.triggers.intents.isEmpty <;>
  by_cases h5 : r.triggers.fileTypes.isEmpty <;>
  simp [h1, h2, h3, h4, h5] <;> ring

theorem ruleDims_max_sum (p c : Str) (r : Rule) (w : Weights) :
    ((ruleDims p c r w).map fun d => (d.total : ℚ) * d.weight).sum = maxScoreSpec r w := by
  unfold ruleDims maxScoreSpec
  by_cases h1 : r.triggers.keywords.isEmpty <;>
  by_cases h2 : r.triggers.patterns.isEmpty <;>
  by_cases h3 : r.triggers.directories.isEmpty <;>
  by_cases h4 : r.triggers.intents.isEmpty <;>
  by_cases h5 : r.triggers.fileTypes.isEmpty <;>
  simp [h1, h2, h3, h4, h5] <;> ring

/-- C7: for a candidate rule with at least one matched dimension, the
raw score is the sum over present dimensions of matched count times
dimension weight, the maximum is the sum of declared count times
weight, the normalized score is 100·raw/max, a rule strictly below its
effective threshold (own override else global default) is excluded, and
a surviving rule's final ranking score is normalized score times
priority/10 (priority defaulting to 5). -/
theorem scoring_formula (prompt cwd : Str) (rule : Rule) (dw : Weights) (dt : ℚ)
    (hmatch : 0 < totalMatchesSpec prompt cwd rule) :
    scoreRule prompt cwd rule dw dt =
      if 100 * rawScoreSpec prompt cwd rule (mergeWeights dw rule.weights) /
          maxScoreSpec rule (mergeWeights dw rule.weights) < rule.threshold.getD dt
      then none
      else some ⟨rule,
        100 * rawScoreSpec prompt cwd rule (mergeWeights dw rule.weights) /
          maxScoreSpec rule (mergeWeights dw rule.weights),
        100 * rawScoreSpec prompt cwd rule (mergeWeights dw rule.weights) /
          maxScoreSpec rule (mergeWeights dw rule.weights) *
          (rule.priority.getD 5 / 10)⟩ := by
  have hsum := ruleDims_count_sum prompt cwd rule (mergeWeights dw rule.weights)
  have hraw := ruleDims_raw_sum prompt cwd rule (mergeWeights dw rule.weights)
  have hmax := ruleDims_max_sum prompt cwd rule (mergeWeights dw rule.weights)
  have hne : (ruleDims prompt cwd rule (mergeWeights dw rule.weights)).isEmpty = false := by
    cases hdim : (ruleDims prompt cwd rule (mergeWeights dw rule.weights)).isEmpty with
    | false => rfl
    | true =>
      rw [List.isEmpty_iff.mp hdim] at hsum
      simp at hsum
      omega
  have hnz : ((ruleDims prompt cwd rule (mergeWeights dw rule.weights)).map Dim.count).sum
      ≠ 0 := by
    rw [hsum]
    omega
  have harith : rawScoreSpec prompt cwd rule (mergeWeights dw rule.weights) /
      maxScoreSpec rule (mergeWeights dw rule.weights) * 100 =
      100 * rawScoreSpec prompt cwd rule (mergeWeights dw rule.weights) /
        maxScoreSpec rule (mergeWeights dw rule.weights) := by
    ring
  simp only [scoreRule, hne, Bool.false_eq_true, if_false, hnz, hraw, hmax, harith]

/-- Witness for C7 at the concrete fixture rule (one matched keyword of
two declared at weight 3, one matched intent of one declared at weight
1, no overrides, priority 7). -/
theorem scoring_formula_witness :
    0 < totalMatchesSpec promptCreate cwd0 createSkillRule ∧
    scoreRule promptCreate cwd0 createSkillRule defaultWeightsFix 30 =
      if 100 * rawScoreSpec promptCreate cwd0 createSkillRule
          (mergeWeights defaultWeightsFix createSkillRule.weights) /
          maxScoreSpec createSkillRule
            (mergeWeights defaultWeightsFix createSkillRule.weights) <
          createSkillRule.threshold.getD 30
      then none
      else some ⟨createSkillRule,
        100 * rawScoreSpec promptCreate cwd0 createSkillRule
            (mergeWeights defaultWeightsFix createSkillRule.weights) /
          maxScoreSpec createSkillRule
            (mergeWeights defaultWeightsFix createSkillRule.weights),
        100 * rawScoreSpec promptCreate cwd0 createSkillRule
            (mergeWeights defaultWeightsFix createSkillRule.weights) /
          maxScoreSpec createSkillRule
            (mergeWeights defaultWeightsFix createSkillRule.weights) *
          (createSkillRule.priority.getD 5 / 10)⟩ :=
  ⟨by decide, scoring_formula promptCreate cwd0 createSkillRule defaultWeightsFix 30 (by decide)⟩

/-! ## C8 — cooldown bookkeeping -/

/-- The render-and-record loop of `main`: the parts are the renders of
the emitted matches in order, and the cooldown table maps exactly the
emitted skills to `now`, leaving every other entry untouched. -/
theorem emitFold (g : ScoredMatch → Str) (now : Int) :
    ∀ (top : List ScoredMatch) (acc : List Str) (cm : CooldownMap),
      top.foldl (fun (a : List Str × CooldownMap) m =>
        (a.1 ++ [g m], recordFire a.2 m.rule.skill now)) (acc, cm) =
      (acc ++ top.map g,
       fun s => if s ∈ top.map (fun m => m.rule.skill) then some now else cm s) := by
  intro top
  induction top with
  | nil =>
    intro acc cm
    have h2 : (fun s =>
        if s ∈ ([] : List ScoredMatch).map (fun m => m.rule.skill) then some now else cm s) =
        cm := by
      funext s
      simp
    simp [h2]
  | cons m rest ih =>
    intro acc cm
    simp only [List.foldl_cons]
    rw [ih]
    have hfst : acc ++ [g m] ++ rest.map g = acc ++ (m :: rest).map g := by
      simp
    have hsnd : (fun s => if s ∈ rest.map (fun m => m.rule.skill) then some now
        else recordFire cm m.rule.skill now s) =
        (fun s => if s ∈ (m :: rest).map (fun m => m.rule.skill) then some now else cm s) := by
      funext s
      by_cases hrest : s ∈ rest.map (fun m => m.rule.skill)
      · simp [hrest]
      · by_cases hskill : s = m.rule.skill
        · simp [hrest, hskill, recordFire]
        · simp [hrest, hskill, recordFire]
    rw [hfst, hsnd]

/-- When scoring actually runs (non-empty prompt, not excluded), the
cooldown table after the run maps exactly the emitted skills to `now`
and leaves every other entry untouched. -/
theorem runSkillEval_cooldowns_run
    (cwd : Str) (now : Int) (skillContent : Str → Option Str) (cm : CooldownMap)
    (inp : PromptInput) (R : SkillRules)
    (hp : inp.prompt.isEmpty = false) (hex : isExcluded inp.prompt R.exclusions = false) :
    (runSkillEval cwd now skillContent cm (some inp) (.loaded R)).cooldowns =
      fun s => if s ∈ (topMatches inp.prompt cwd cm now R).map (fun m => m.rule.skill)
        then some now else cm s := by
  by_cases hml : (R.rules.filterMap (considerRule inp.prompt cwd cm now
      R.defaults.weights R.defaults.threshold)).isEmpty
  · have htop : topMatches inp.prompt cwd cm now R = [] := by
      simp [topMatches, List.isEmpty_iff.mp hml, sortByScoreDesc]
    have hres : (runSkillEval cwd now skillContent cm (some inp) (.loaded R)).cooldowns = cm := by
      simp [runSkillEval, hp, hex, hml]
    rw [hres, htop]
    funext s
    simp
  · simp [runSkillEval, hp, hex, hml, emitFold, topMatches]

/-- C8: in every scoring invocation, exactly the skills of the emitted
matches (the candidates remaining after sorting descending by final
score and truncating to `maxSuggestions`) receive the cooldown
timestamp `now`; every other skill's entry is unchanged; and a rule
with a truthy cooldown whose skill is currently on cooldown is excluded
from consideration regardless of its score. -/
theorem cooldown_semantics
    (cwd : Str) (now : Int) (skillContent : Str → Option Str) (cm : CooldownMap)
    (inp : PromptInput) (R : SkillRules) :
    (∀ s : Str, s ∉ (topMatches inp.prompt cwd cm now R).map (fun m => m.rule.skill) →
      (runSkillEval cwd now skillContent cm (some inp) (.loaded R)).cooldowns s = cm s) ∧
    (inp.prompt.isEmpty = false → isExcluded inp.prompt R.exclusions = false →
      ∀ m ∈ topMatches inp.prompt cwd cm now R,
        (runSkillEval cwd now skillContent cm (some inp) (.loaded R)).cooldowns m.rule.skill =
          some now) ∧
    (∀ rule ∈ R.rules, ∀ c : ℚ, rule.cooldown = some c → c ≠ 0 →
      isOnCooldown cm rule.skill c now = true →
      ∀ m ∈ topMatches inp.prompt cwd cm now R, m.rule ≠ rule) := by
  refine ⟨?_, ?_, ?_⟩
  · intro s hs
    by_cases hp : inp.prompt.isEmpty
    · simp [runSkillEval, hp]
    · by_cases hex : isExcluded inp.prompt R.exclusions
      · simp [runSkillEval, hp, hex]
      · rw [runSkillEval_cooldowns_run cwd now skillContent cm inp R
          (by simpa using hp) (by simpa using hex)]
        simp [hs]
  · intro hp hex m hm
    rw [runSkillEval_cooldowns_run cwd now skillContent cm inp R hp hex]
    simp only []
    rw [if_pos (List.mem_map_of_mem _ hm)]
  · intro rule hmem c hcd hc0 hcool m hm heq
    obtain ⟨rule2, _, hcons⟩ := mem_topMatches hm
    obtain ⟨hr2, _, _⟩ := considerRule_some hcons
    rw [heq] at hr2
    rw [← hr2] at hcons
    simp [considerRule, hcd, hc0, hcool] at hcons

/-- Witness for C8: on the fixture run, the emitted `CreateSkill` is
stamped with the invocation time while the non-emitted `Guard` skill's
entry is unchanged. -/
theorem cooldown_semantics_witness :
    (runSkillEval cwd0 0 (fun _ => none) cmEmpty (some ⟨promptCreate, "s".data⟩)
        (.loaded fixtureRules)).cooldowns "Guard".data = cmEmpty "Guard".data ∧
    (runSkillEval cwd0 0 (fun _ => none) cmEmpty (some ⟨promptCreate, "s".data⟩)
        (.loaded fixtureRules)).cooldowns "CreateSkill".data = some 0 :=
  ⟨(cooldown_semantics cwd0 0 (fun _ => none) cmEmpty ⟨promptCreate, "s".data⟩
      fixtureRules).1 "Guard".data
      (by rw [topMatches_fixture_eval]; decide),
   (cooldown_semantics cwd0 0 (fun _ => none) cmEmpty ⟨promptCreate, "s".data⟩
      fixtureRules).2.1 rfl (by decide) ⟨createSkillRule, 400 / 7, 40⟩
      (by rw [topMatches_fixture_eval]; exact List.mem_singleton.mpr rfl)⟩
